import Mathlib

/-!
# idf_led_driver: program store and sequencer task

A shallow embedding of `src/src/idf_led_driver.c` and `src/include/idf_led_driver.h`.

Modelling conventions.

* C unsigned integers are natural numbers, reduced explicitly where the C code can wrap:
  `TickType_t` arithmetic modulo `2^32`, the `uint8_t` fields `uIndex` and `maxPgmIdx`
  modulo `2^8`.  The sum `time + fade_time` of two `uint16_t` values is computed in `int`
  (integer promotion), so it does not wrap at 16 bits; it is stored in a `TickType_t`.
* A program buffer is a list of steps; a null pointer is `none`.  Reading a buffer at an index
  outside it is undefined behaviour in C and is a `Fault` here.
* The heap: an allocation of a positive size succeeds.  What `malloc(0)` returns is
  implementation-defined in C (a null pointer or a pointer to a zero-sized block); it is a
  parameter of `lm_apply_pgm`.  The allocator of ESP-IDF, the platform of this component,
  returns a null pointer, which is the value `true` of the parameter.
* The environment of one call is passed as arguments: whether `xSemaphoreTake` obtained the
  semaphore, what `xTaskGetTickCount` returned, whether the LEDC configuration calls succeeded.
* `portTICK_PERIOD_MS` comes from the FreeRTOS configuration and is a parameter.
* The calls made to the LEDC peripheral are returned as a trace.
-/

namespace LedDriver

/-! ## Data model -/

/-- Led driver single program element type (`lm_led_state_t`), three `uint16_t` fields. -/
structure lm_led_state_t where
  intensity : Nat
  fade_time : Nat
  time : Nat
deriving DecidableEq, Repr

/-- Argument `fade_mode` of `ledc_set_fade_time_and_start`. -/
inductive ledc_fade_mode_t where
  | LEDC_FADE_NO_WAIT
  | LEDC_FADE_WAIT_DONE
deriving DecidableEq, Repr

/-- A call to the LEDC peripheral made by the sequencer, with its arguments in source order. -/
inductive HwCall where
  | ledc_set_duty_and_update (speed_mode channel duty hpoint : Nat)
  | ledc_set_fade_time_and_start (speed_mode channel target_duty max_fade_time_ms : Nat)
      (fade_mode : ledc_fade_mode_t)
deriving DecidableEq, Repr

/-- One commit of the sequencer: the index at which `led_pgm` was read and the call issued. -/
structure Commit where
  index : Nat
  call : HwCall
deriving DecidableEq, Repr

/-- Undefined behaviour the C code can run into. -/
inductive Fault where
  /-- Read of `led_pgm[index]` outside the allocated buffer (sequencer). -/
  | readOutOfBounds (index : Nat)
  /-- The `memcpy` source is shorter than the requested number of elements. -/
  | copyOutOfBounds
  /-- Access through the global `lm` after `free(lm)`. -/
  | useAfterFree
deriving DecidableEq, Repr

/-- Internal driver state type (`lm_led_t`).  The semaphore is represented by the outcome
of each `xSemaphoreTake`; `led_task_handle` is written by `xTaskCreate` and never read. -/
structure lm_led_t where
  speed_mode : Nat
  channel : Nat
  cycle_start : Nat
  cycle_interval : Nat
  uIndex : Nat
  maxPgmIdx : Nat
  led_pgm : Option (List lm_led_state_t)
deriving DecidableEq, Repr

/-- Subtraction of two `TickType_t` values (`uint32_t`): the result modulo `2^32`. -/
def tickSub (a b : Nat) : Nat := (a % 2 ^ 32 + 2 ^ 32 - b % 2 ^ 32) % 2 ^ 32

/-- The test of line 129: `(xTaskGetTickCount() - lm->cycle_start) > lm->cycle_interval`. -/
def dwellElapsed (lm : lm_led_t) (now : Nat) : Bool :=
  decide (tickSub now lm.cycle_start > lm.cycle_interval)

/-- The hardware call of lines 131-135 for the step `st` read at `led_pgm[uIndex]`, on
`lm->speed_mode` and `lm->channel`. -/
def commitCall (speed_mode channel : Nat) (st : lm_led_state_t) : HwCall :=
  if st.fade_time = 0 then
    HwCall.ledc_set_duty_and_update speed_mode channel st.intensity 0
  else
    HwCall.ledc_set_fade_time_and_start speed_mode channel st.intensity st.fade_time
      ledc_fade_mode_t.LEDC_FADE_NO_WAIT

/-- The cursor update of lines 138-139: `uIndex++` on a `uint8_t`, then reset to `0` when it
equals `maxPgmIdx`. -/
def nextIndex (lm : lm_led_t) : Nat :=
  if (lm.uIndex + 1) % 256 = lm.maxPgmIdx then 0 else (lm.uIndex + 1) % 256

/-! ## The sequencer task -/

/-- One iteration of the `while(true)` body of `vLedTask` (lines 127-144).
`taken` is whether `xSemaphoreTake` returned `pdTRUE`; `now1` and `now2` are the values
returned by the two calls of `xTaskGetTickCount` (lines 129 and 136). -/
def vLedTask (portTICK_PERIOD_MS : Nat) (lm : lm_led_t) (taken : Bool) (now1 now2 : Nat) :
    Except Fault (lm_led_t × List Commit) :=
  if taken then
    match lm.led_pgm with
    | some pgm =>
      if dwellElapsed lm now1 then
        match pgm[lm.uIndex]? with
        | none => .error (Fault.readOutOfBounds lm.uIndex)
        | some st =>
          let interval := (st.time + st.fade_time) % 2 ^ 32
          .ok ({ lm with
                  cycle_interval := interval / portTICK_PERIOD_MS
                  cycle_start := now2 % 2 ^ 32
                  uIndex := nextIndex lm },
               [{ index := lm.uIndex, call := commitCall lm.speed_mode lm.channel st }])
      else .ok (lm, [])
    | none => .ok (lm, [])
  else .ok (lm, [])

/-- The environment of one sequencer iteration. -/
structure Tick where
  taken : Bool
  now1 : Nat
  now2 : Nat
deriving DecidableEq, Repr

/-- A run of the sequencer: consecutive iterations of the loop, one per element of `env`,
with the commits of all iterations in order. -/
def runTask (portTICK_PERIOD_MS : Nat) (lm : lm_led_t) (env : List Tick) :
    Except Fault (lm_led_t × List Commit) :=
  match env with
  | [] => .ok (lm, [])
  | t :: rest =>
    match vLedTask portTICK_PERIOD_MS lm t.taken t.now1 t.now2 with
    | .error f => .error f
    | .ok (lm1, out1) =>
      match runTask portTICK_PERIOD_MS lm1 rest with
      | .error f => .error f
      | .ok (lm2, out2) => .ok (lm2, out1 ++ out2)

/-! ## Installing a program -/

/-- The critical section of `lm_apply_pgm` (lines 111-118) on the driver state.
`led_state` is the caller's array (`none` for `NULL`), `led_state_size` the element count,
`mallocZeroNull` whether `malloc(0)` returns a null pointer.  The array `led_state` lies in
the 32-bit address space, so `led_state_size * sizeof(lm_led_state_t)` does not wrap when
`led_state_size` elements can be read from it; `maxPgmIdx` is a `uint8_t`. -/
def applyLocked (lm : lm_led_t) (led_state : Option (List lm_led_state_t))
    (led_state_size : Nat) (mallocZeroNull : Bool) : Except Fault lm_led_t :=
  match led_state with
  | some steps =>
    if led_state_size ≤ steps.length then
      .ok { lm with
              led_pgm :=
                if led_state_size = 0 ∧ mallocZeroNull = true then none
                else some (steps.take led_state_size)
              uIndex := 0
              maxPgmIdx := led_state_size % 256 }
    else .error Fault.copyOutOfBounds
  | none => .ok { lm with led_pgm := none }

/-- The global pointer `lm`. -/
inductive LmRef where
  | null
  | live (d : lm_led_t)
  | freed
deriving DecidableEq, Repr

/-- The process-wide state: the global `lm` and the number of tasks created by `xTaskCreate`. -/
structure World where
  lm : LmRef
  tasks : Nat
deriving DecidableEq, Repr

/-- Return type of `lm_init`. -/
inductive esp_err_t where
  | ESP_OK
  | ESP_FAIL
deriving DecidableEq, Repr

/-- The two fields of `lm_ledc_config_t` that `lm_init` reads itself; the rest of the
configuration is passed through to the LEDC calls. -/
structure lm_ledc_config_t where
  speed_mode : Nat
  channel : Nat
deriving DecidableEq, Repr

/-- Results of the three LEDC calls of `lm_init`: each is `true` when the call returned
`ESP_OK`. -/
structure InitEnv where
  timerOk : Bool
  channelOk : Bool
  fadeOk : Bool
deriving DecidableEq, Repr

/-- The function `lm_init` (lines 55-104).  `defaultSpeedMode` is the speed mode the
preprocessor selects for the default configuration; the default channel is `LEDC_CHANNEL_0`. -/
def lm_init (defaultSpeedMode : Nat) (w : World) (ledc_config : Option lm_ledc_config_t)
    (hw : InitEnv) : World × esp_err_t :=
  let defcfg : lm_ledc_config_t :=
    match ledc_config with
    | some cfg => cfg
    | none => { speed_mode := defaultSpeedMode, channel := 0 }
  let d : lm_led_t :=
    { speed_mode := defcfg.speed_mode
      channel := defcfg.channel
      cycle_start := 0
      cycle_interval := 0
      uIndex := 0
      maxPgmIdx := 0
      led_pgm := none }
  let ret := (hw.timerOk && hw.channelOk) && hw.fadeOk
  if !ret then
    ({ w with lm := LmRef.freed }, esp_err_t.ESP_FAIL)
  else
    ({ lm := LmRef.live d, tasks := w.tasks + 1 }, esp_err_t.ESP_OK)

/-- Lines 110-120 of `lm_apply_pgm`, reached with the global `lm` non-null. -/
def applyWith (w : World) (led_state : Option (List lm_led_state_t)) (led_state_size : Nat)
    (taken : Bool) (mallocZeroNull : Bool) : Except Fault World :=
  match w.lm with
  | LmRef.live d =>
    if taken then
      match applyLocked d led_state led_state_size mallocZeroNull with
      | .ok d1 => .ok { w with lm := LmRef.live d1 }
      | .error f => .error f
    else .ok w
  | _ => .error Fault.useAfterFree

/-- The function `lm_apply_pgm` (lines 106-122).  `hw` gives the results of the LEDC calls
should `lm_init(NULL)` be called, `taken` whether `xSemaphoreTake` returned `pdTRUE`. -/
def lm_apply_pgm (defaultSpeedMode : Nat) (w : World)
    (led_state : Option (List lm_led_state_t)) (led_state_size : Nat)
    (hw : InitEnv) (taken : Bool) (mallocZeroNull : Bool) : Except Fault World :=
  match w.lm with
  | LmRef.null =>
    match lm_init defaultSpeedMode w none hw with
    | (w1, esp_err_t.ESP_OK) => applyWith w1 led_state led_state_size taken mallocZeroNull
    | (w1, esp_err_t.ESP_FAIL) => .ok w1
  | _ => applyWith w led_state led_state_size taken mallocZeroNull

/-- A run of `n` consecutive iterations, one per scheduler tick, starting one tick after
`now`; every iteration obtains the semaphore and reads the same tick count twice. -/
def ticksFrom (now n : Nat) : List Tick :=
  (List.range n).map fun k =>
    { taken := true, now1 := (now + 1 + k) % 2 ^ 32, now2 := (now + 1 + k) % 2 ^ 32 }

/-- The number of steps the sequencer cycles over for a program of `n` steps: the cursor and
`maxPgmIdx` are `uint8_t`, so `maxPgmIdx` holds `n % 256`, and a value of `0` is met again
only when the cursor wraps at `256`. -/
def period (n : Nat) : Nat := if n % 256 = 0 then 256 else n % 256

/-- The commit expected as number `k` (from `0`) after a program `pgm` is installed on
a driver with the given speed mode and channel, when the cursor cycles with period `p`. -/
def cycleCommit (pgm : List lm_led_state_t) (speed_mode channel p k : Nat) : Option Commit :=
  (pgm[k % p]?).map fun st => { index := k % p, call := commitCall speed_mode channel st }

/-- The driver renders `pgm` and has made `j` commits since `pgm` was installed. -/
def Rendering (pgm : List lm_led_state_t) (speed_mode channel j : Nat) (d : lm_led_t) : Prop :=
  d.led_pgm = some pgm ∧ d.maxPgmIdx = pgm.length % 256 ∧
    d.uIndex = j % period pgm.length ∧ d.speed_mode = speed_mode ∧ d.channel = channel

/-! ## Concrete inputs -/

/-- A freshly initialised driver with the default configuration: the state `lm_init(NULL)`
leaves in `*lm` (the memory comes from `calloc`). -/
def freshDriver : lm_led_t :=
  { speed_mode := 0, channel := 0, cycle_start := 0, cycle_interval := 0, uIndex := 0,
    maxPgmIdx := 0, led_pgm := none }

/-- The two-step program of the scenario of the specification on a 12-bit channel. -/
def blinkProgram : List lm_led_state_t :=
  [{ intensity := 0, fade_time := 0, time := 100 },
   { intensity := 4095, fade_time := 200, time := 0 }]

/-- A driver rendering `blinkProgram`, about to commit step `1`; step `0` was committed at
tick `4294967290`, six ticks before the tick counter wraps. -/
def blinkDriver : lm_led_t :=
  { speed_mode := 0, channel := 0, cycle_start := 4294967290, cycle_interval := 100,
    uIndex := 1, maxPgmIdx := 2, led_pgm := some blinkProgram }

/-- A two-step program whose step `0` fades to `2048` over `50` ms and holds `25` ms; neither
step issues a call that a step of `blinkProgram` issues. -/
def fadeProgram : List lm_led_state_t :=
  [{ intensity := 2048, fade_time := 50, time := 25 },
   { intensity := 7, fade_time := 0, time := 5 }]

/-- A program of `n` steps, step `i` setting intensity `i` at once and holding it `10` ms. -/
def rampProgram (n : Nat) : List lm_led_state_t :=
  (List.range n).map fun i => { intensity := i, fade_time := 0, time := 10 }

/-- All three LEDC calls of `lm_init` succeed. -/
def hwOk : InitEnv := { timerOk := true, channelOk := true, fadeOk := true }

/-- The timer configuration call of `lm_init` fails, the other two succeed. -/
def hwTimerFails : InitEnv := { timerOk := false, channelOk := true, fadeOk := true }

/-- The state after `lm_apply_pgm(rampProgram 257, 257)` on `freshDriver`: `maxPgmIdx` holds
`257 mod 256`. -/
def rampDriver : lm_led_t :=
  { freshDriver with led_pgm := some (rampProgram 257), uIndex := 0, maxPgmIdx := 1 }

/-- The commit of step `0` of a `rampProgram` on the default channel. -/
def rampCommit0 : Commit :=
  { index := 0, call := HwCall.ledc_set_duty_and_update 0 0 0 0 }

/-- The commit of step `1` of a `rampProgram` on the default channel. -/
def rampCommit1 : Commit :=
  { index := 1, call := HwCall.ledc_set_duty_and_update 0 0 1 0 }

/-- The state after `lm_apply_pgm(steps, 0)` on `freshDriver` on an allocator whose
`malloc(0)` returns a pointer to a zero-sized block: `led_pgm` is non-null and holds no step. -/
def emptyBufferDriver : lm_led_t :=
  { freshDriver with led_pgm := some [], uIndex := 0, maxPgmIdx := 0 }

/-! ## Basic facts about one iteration -/

theorem vLedTask_not_taken (P : Nat) (d : lm_led_t) (now1 now2 : Nat) :
    vLedTask P d false now1 now2 = .ok (d, []) := by
  simp [vLedTask]

theorem vLedTask_idle (P : Nat) (d : lm_led_t) (taken : Bool) (now1 now2 : Nat)
    (h : d.led_pgm = none) : vLedTask P d taken now1 now2 = .ok (d, []) := by
  cases taken <;> simp [vLedTask, h]

theorem vLedTask_wait (P : Nat) (d : lm_led_t) (taken : Bool) (now1 now2 : Nat)
    (h : dwellElapsed d now1 = false) : vLedTask P d taken now1 now2 = .ok (d, []) := by
  cases taken
  · simp [vLedTask]
  · cases hp : d.led_pgm <;> simp [vLedTask, hp, h]

theorem vLedTask_commit (P : Nat) (d : lm_led_t) (pgm : List lm_led_state_t)
    (st : lm_led_state_t) (now1 now2 : Nat) (hp : d.led_pgm = some pgm)
    (hs : pgm[d.uIndex]? = some st) (h : dwellElapsed d now1 = true) :
    vLedTask P d true now1 now2 =
      .ok ({ d with
              cycle_interval := (st.time + st.fade_time) % 2 ^ 32 / P
              cycle_start := now2 % 2 ^ 32
              uIndex := nextIndex d },
           [{ index := d.uIndex, call := commitCall d.speed_mode d.channel st }]) := by
  simp [vLedTask, hp, hs, h]

theorem vLedTask_oob (P : Nat) (d : lm_led_t) (pgm : List lm_led_state_t)
    (now1 now2 : Nat) (hp : d.led_pgm = some pgm)
    (hs : pgm.length ≤ d.uIndex) (h : dwellElapsed d now1 = true) :
    vLedTask P d true now1 now2 = .error (Fault.readOutOfBounds d.uIndex) := by
  have : pgm[d.uIndex]? = none := List.getElem?_eq_none hs
  simp [vLedTask, hp, this, h]

theorem runTask_nil (P : Nat) (d : lm_led_t) : runTask P d [] = .ok (d, []) := rfl

theorem runTask_cons_ok (P : Nat) (d d1 d2 : lm_led_t) (t : Tick) (rest : List Tick)
    (o1 o2 : List Commit) (h1 : vLedTask P d t.taken t.now1 t.now2 = .ok (d1, o1))
    (h2 : runTask P d1 rest = .ok (d2, o2)) :
    runTask P d (t :: rest) = .ok (d2, o1 ++ o2) := by
  simp [runTask, h1, h2]

theorem tickSub_add (c e : Nat) (hc : c < 2 ^ 32) (he : e < 2 ^ 32) :
    tickSub ((c + e) % 2 ^ 32) c = e := by
  unfold tickSub
  omega

/-! ## Idle state -/

theorem runTask_idle (P : Nat) (d : lm_led_t) (h : d.led_pgm = none) (env : List Tick) :
    runTask P d env = .ok (d, []) := by
  induction env with
  | nil => rfl
  | cons t rest ih =>
    have h1 := vLedTask_idle P d t.taken t.now1 t.now2 h
    simpa using runTask_cons_ok P d d d t rest [] [] h1 ih

/-! ## Installing on a live driver -/

theorem lm_apply_pgm_live (dsm : Nat) (d : lm_led_t) (n : Nat)
    (led_state : Option (List lm_led_state_t)) (size : Nat) (hw : InitEnv) (mz : Bool) :
    lm_apply_pgm dsm { lm := LmRef.live d, tasks := n } led_state size hw true mz =
      match applyLocked d led_state size mz with
      | .ok d1 => .ok { lm := LmRef.live d1, tasks := n }
      | .error f => .error f := by
  simp [lm_apply_pgm, applyWith]

theorem lm_apply_pgm_not_taken (dsm : Nat) (d : lm_led_t) (n : Nat)
    (led_state : Option (List lm_led_state_t)) (size : Nat) (hw : InitEnv) (mz : Bool) :
    lm_apply_pgm dsm { lm := LmRef.live d, tasks := n } led_state size hw false mz =
      .ok { lm := LmRef.live d, tasks := n } := by
  simp [lm_apply_pgm, applyWith]

theorem applyLocked_some (d : lm_led_t) (steps : List lm_led_state_t) (size : Nat) (mz : Bool)
    (h1 : 1 ≤ size) (h2 : size ≤ steps.length) :
    applyLocked d (some steps) size mz =
      .ok { d with led_pgm := some (steps.take size), uIndex := 0, maxPgmIdx := size % 256 } := by
  have h0 : size ≠ 0 := by omega
  simp [applyLocked, h2, h0]

theorem applyLocked_null (d : lm_led_t) (size : Nat) (mz : Bool) :
    applyLocked d none size mz = .ok { d with led_pgm := none } := rfl

/-! ## The cursor cycle -/

theorem period_pos (n : Nat) : 0 < period n := by
  unfold period; split <;> omega

theorem period_le_256 (n : Nat) : period n ≤ 256 := by
  unfold period; split <;> omega

theorem period_le (n : Nat) (h : 1 ≤ n) : period n ≤ n := by
  unfold period; split <;> omega

theorem period_eq (n : Nat) (h1 : 1 ≤ n) (h2 : n ≤ 256) : period n = n := by
  unfold period; split <;> omega

theorem succ_mod_cases (j m : Nat) (hm : 0 < m) :
    (j + 1) % m = if j % m + 1 = m then 0 else j % m + 1 := by
  have hlt : j % m < m := Nat.mod_lt j hm
  rw [← Nat.mod_add_mod j m 1]
  split
  · next h => rw [h, Nat.mod_self]
  · next h => exact Nat.mod_eq_of_lt (by omega)

theorem nextIndex_cycle (u m : Nat) (hm : m < 256) (hu : u < period m) :
    (if (u + 1) % 256 = m then 0 else (u + 1) % 256) =
      if u + 1 = period m then 0 else u + 1 := by
  unfold period at *
  rw [Nat.mod_eq_of_lt hm] at *
  by_cases h0 : m = 0
  · subst h0
    simp only [if_true] at hu ⊢
    split <;> split <;> omega
  · rw [if_neg h0] at hu ⊢
    have : (u + 1) % 256 = u + 1 := Nat.mod_eq_of_lt (by omega)
    rw [this]

theorem period_mod (n : Nat) : period (n % 256) = period n := by
  unfold period
  rw [Nat.mod_mod]

theorem nextIndex_rendering (pgm : List lm_led_state_t) (sm ch j : Nat) (d : lm_led_t)
    (h : Rendering pgm sm ch j d) : nextIndex d = (j + 1) % period pgm.length := by
  obtain ⟨_, hm, hu, _, _⟩ := h
  have hpos := period_pos pgm.length
  have hlt : j % period pgm.length < period pgm.length := Nat.mod_lt j hpos
  rw [succ_mod_cases j _ hpos]
  unfold nextIndex
  rw [hm, hu]
  have key := nextIndex_cycle (j % period pgm.length) (pgm.length % 256)
    (Nat.mod_lt _ (by decide)) (by rw [period_mod]; exact hlt)
  rw [period_mod] at key
  exact key

theorem rendering_index_lt (pgm : List lm_led_state_t) (sm ch j : Nat) (d : lm_led_t)
    (hlen : 1 ≤ pgm.length) (h : Rendering pgm sm ch j d) : d.uIndex < pgm.length := by
  obtain ⟨_, _, hu, _, _⟩ := h
  have hlt : j % period pgm.length < period pgm.length := Nat.mod_lt j (period_pos _)
  have := period_le pgm.length hlen
  omega

theorem vLedTask_rendering (P : Nat) (pgm : List lm_led_state_t) (sm ch j : Nat) (d : lm_led_t)
    (hlen : 1 ≤ pgm.length) (h : Rendering pgm sm ch j d) (t : Tick) :
    (vLedTask P d t.taken t.now1 t.now2 = .ok (d, []) ∧
        (t.taken = false ∨ dwellElapsed d t.now1 = false)) ∨
      (∃ d1 c, vLedTask P d t.taken t.now1 t.now2 = .ok (d1, [c]) ∧
        Rendering pgm sm ch (j + 1) d1 ∧ some c = cycleCommit pgm sm ch (period pgm.length) j ∧
        t.taken = true ∧ dwellElapsed d t.now1 = true) := by
  have hidx := rendering_index_lt pgm sm ch j d hlen h
  have hnext := nextIndex_rendering pgm sm ch j d h
  obtain ⟨hp, hm, hu, hs, hc⟩ := h
  cases htk : t.taken
  · exact Or.inl ⟨vLedTask_not_taken P d _ _, Or.inl rfl⟩
  · cases hdw : dwellElapsed d t.now1
    · exact Or.inl ⟨vLedTask_wait P d true _ _ hdw, Or.inr rfl⟩
    · right
      have hget : pgm[d.uIndex]? = some (pgm[d.uIndex]) := List.getElem?_eq_getElem hidx
      refine ⟨_, _, vLedTask_commit P d pgm _ t.now1 t.now2 hp hget hdw, ?_, ?_, rfl, rfl⟩
      · exact ⟨hp, hm, hnext, hs, hc⟩
      · simp only [cycleCommit]
        rw [← hu, hget, hs, hc]
        rfl

theorem runTask_rendering (P : Nat) (pgm : List lm_led_state_t) (sm ch : Nat)
    (hlen : 1 ≤ pgm.length) (env : List Tick) :
    ∀ (j : Nat) (d : lm_led_t), Rendering pgm sm ch j d →
      ∃ d1 out, runTask P d env = .ok (d1, out) ∧ Rendering pgm sm ch (j + out.length) d1 ∧
        ∀ k, k < out.length →
          out[k]? = cycleCommit pgm sm ch (period pgm.length) (j + k) := by
  induction env with
  | nil =>
    intro j d h
    exact ⟨d, [], rfl, by simpa using h, by simp⟩
  | cons t rest ih =>
    intro j d h
    rcases vLedTask_rendering P pgm sm ch j d hlen h t with ⟨h1, _⟩ | ⟨d1, c, h1, hr, hc, _⟩
    · obtain ⟨d2, out, h2, hr2, hk⟩ := ih j d h
      exact ⟨d2, out, by simpa using runTask_cons_ok P d d d2 t rest [] out h1 h2, hr2, hk⟩
    · obtain ⟨d2, out, h2, hr2, hk⟩ := ih (j + 1) d1 hr
      refine ⟨d2, c :: out, by simpa using runTask_cons_ok P d d1 d2 t rest [c] out h1 h2, ?_, ?_⟩
      · have : j + (c :: out).length = j + 1 + out.length := by simp; omega
        rw [this]; exact hr2
      · intro k hk1
        cases k with
        | zero => simpa using hc
        | succ k =>
          have hk2 : k < out.length := by simpa using hk1
          have := hk k hk2
          have e : j + (k + 1) = j + 1 + k := by omega
          rw [e]
          simpa using this

theorem take_length_eq (steps : List lm_led_state_t) (count : Nat) (h : count ≤ steps.length) :
    (steps.take count).length = count := by
  simp [List.length_take, h]

theorem rendering_installed (d : lm_led_t) (pgm : List lm_led_state_t) :
    Rendering pgm d.speed_mode d.channel 0
      { d with led_pgm := some pgm, uIndex := 0, maxPgmIdx := pgm.length % 256 } :=
  ⟨rfl, rfl, by simp, rfl, rfl⟩

theorem runTask_waiting (P : Nat) (d : lm_led_t) (env : List Tick)
    (h : ∀ t ∈ env, dwellElapsed d t.now1 = false) : runTask P d env = .ok (d, []) := by
  induction env with
  | nil => rfl
  | cons t rest ih =>
    have h1 := vLedTask_wait P d t.taken t.now1 t.now2 (h t (List.mem_cons_self _ _))
    have h2 := ih (fun u hu => h u (List.mem_cons_of_mem _ hu))
    simpa using runTask_cons_ok P d d d t rest [] [] h1 h2

theorem runTask_append (P : Nat) (e1 e2 : List Tick) :
    ∀ (d d1 d2 : lm_led_t) (o1 o2 : List Commit), runTask P d e1 = .ok (d1, o1) →
      runTask P d1 e2 = .ok (d2, o2) → runTask P d (e1 ++ e2) = .ok (d2, o1 ++ o2) := by
  induction e1 with
  | nil =>
    intro d d1 d2 o1 o2 h1 h2
    simp only [runTask, Except.ok.injEq, Prod.mk.injEq] at h1
    obtain ⟨rfl, rfl⟩ := h1
    simpa using h2
  | cons t rest ih =>
    intro d d1 d2 o1 o2 h1 h2
    cases hv : vLedTask P d t.taken t.now1 t.now2 with
    | error f => simp [runTask, hv] at h1
    | ok r =>
      obtain ⟨da, oa⟩ := r
      cases hr : runTask P da rest with
      | error f => simp [runTask, hv, hr] at h1
      | ok r2 =>
        obtain ⟨db, ob⟩ := r2
        simp only [runTask, hv, hr, Except.ok.injEq, Prod.mk.injEq] at h1
        obtain ⟨rfl, rfl⟩ := h1
        have := ih da db d2 ob o2 hr h2
        have h3 := runTask_cons_ok P d da d2 t (rest ++ e2) oa (ob ++ o2) hv this
        simpa [List.append_assoc] using h3

/-! ## Properties of the sequencer and of installation -/

/-- C1: for every driver state with a program installed and the cursor inside it, an iteration
of the sequencer that obtained the lock and found the dwell elapsed issues exactly one hardware
call, for the step at the cursor: `ledc_set_duty_and_update` with the step's intensity when its
`fade_time` is `0`, and `ledc_set_fade_time_and_start` with the step's intensity, its
`fade_time` and `LEDC_FADE_NO_WAIT` when `fade_time` is positive. -/
theorem commit_fade_or_immediate (P : Nat) (d : lm_led_t) (pgm : List lm_led_state_t)
    (now1 now2 : Nat) (hp : d.led_pgm = some pgm) (hlt : d.uIndex < pgm.length)
    (hel : dwellElapsed d now1 = true) :
    ∃ d1 call, vLedTask P d true now1 now2 = .ok (d1, [{ index := d.uIndex, call := call }]) ∧
      (pgm[d.uIndex].fade_time = 0 →
        call = HwCall.ledc_set_duty_and_update d.speed_mode d.channel
          pgm[d.uIndex].intensity 0) ∧
      (0 < pgm[d.uIndex].fade_time →
        call = HwCall.ledc_set_fade_time_and_start d.speed_mode d.channel
          pgm[d.uIndex].intensity pgm[d.uIndex].fade_time
          ledc_fade_mode_t.LEDC_FADE_NO_WAIT) := by
  have hget : pgm[d.uIndex]? = some (pgm[d.uIndex]) := List.getElem?_eq_getElem hlt
  refine ⟨_, _, vLedTask_commit P d pgm _ now1 now2 hp hget hel, ?_, ?_⟩
  · intro h0
    simp [commitCall, h0]
  · intro hpos
    have : pgm[d.uIndex].fade_time ≠ 0 := by omega
    simp [commitCall, this]

theorem commit_fade_or_immediate_witness :
    ∃ d1 call, vLedTask 1 blinkDriver true 95 95 =
        .ok (d1, [{ index := blinkDriver.uIndex, call := call }]) ∧
      (blinkProgram[1].fade_time = 0 →
        call = HwCall.ledc_set_duty_and_update blinkDriver.speed_mode blinkDriver.channel
          blinkProgram[1].intensity 0) ∧
      (0 < blinkProgram[1].fade_time →
        call = HwCall.ledc_set_fade_time_and_start blinkDriver.speed_mode blinkDriver.channel
          blinkProgram[1].intensity blinkProgram[1].fade_time
          ledc_fade_mode_t.LEDC_FADE_NO_WAIT) :=
  commit_fade_or_immediate 1 blinkDriver blinkProgram 95 95 rfl (by decide) (by decide)

/-- C5: in a driver state with no program installed (`led_pgm` is `NULL`) every iteration of
the sequencer issues no hardware call and leaves the whole state, so the cursor, `cycle_start`
and `cycle_interval`, unchanged, and so does every run of iterations; `lm_apply_pgm(NULL, 0)`
with the lock obtained leads any driver `r`, whatever it was rendering, to such a state. -/
theorem idle_safety (P dsm n : Nat) (hw : InitEnv) (mz : Bool) (d r : lm_led_t)
    (h : d.led_pgm = none) :
    (∀ taken now1 now2, vLedTask P d taken now1 now2 = .ok (d, [])) ∧
      (∀ env, runTask P d env = .ok (d, [])) ∧
      lm_apply_pgm dsm { lm := LmRef.live r, tasks := n } none 0 hw true mz =
        .ok { lm := LmRef.live { r with led_pgm := none }, tasks := n } ∧
      (∀ env, runTask P { r with led_pgm := none } env = .ok ({ r with led_pgm := none }, [])) := by
  refine ⟨fun taken now1 now2 => vLedTask_idle P d taken now1 now2 h,
    fun env => runTask_idle P d h env, ?_, fun env => runTask_idle P _ rfl env⟩
  rw [lm_apply_pgm_live, applyLocked_null]

theorem idle_safety_witness :
    freshDriver.led_pgm = none ∧
      ((∀ taken now1 now2, vLedTask 1 freshDriver taken now1 now2 = .ok (freshDriver, [])) ∧
      (∀ env, runTask 1 freshDriver env = .ok (freshDriver, [])) ∧
      lm_apply_pgm 0 { lm := LmRef.live blinkDriver, tasks := 1 } none 0 hwOk true true =
        .ok { lm := LmRef.live { blinkDriver with led_pgm := none }, tasks := 1 } ∧
      (∀ env, runTask 1 { blinkDriver with led_pgm := none } env =
        .ok ({ blinkDriver with led_pgm := none }, []))) :=
  ⟨rfl, idle_safety 1 0 1 hwOk true freshDriver blinkDriver rfl⟩

/-- C10: with `TickType_t` arithmetic modulo `2^32`, for every `cycle_start` and every true
elapsed tick count `e` below `2^32`, the difference the sequencer computes from the tick count
`(cycle_start + e) mod 2^32` is `e`, so the commit test holds exactly when `e` exceeds
`cycle_interval`, also when the tick counter has wrapped since `cycle_start`. -/
theorem dwell_test_across_overflow (d : lm_led_t) (e : Nat) (hc : d.cycle_start < 2 ^ 32)
    (he : e < 2 ^ 32) :
    tickSub ((d.cycle_start + e) % 2 ^ 32) d.cycle_start = e ∧
      (dwellElapsed d ((d.cycle_start + e) % 2 ^ 32) = true ↔ d.cycle_interval < e) := by
  have h := tickSub_add d.cycle_start e hc he
  refine ⟨h, ?_⟩
  unfold dwellElapsed
  rw [h]
  exact decide_eq_true_iff

theorem dwell_test_across_overflow_witness :
    blinkDriver.cycle_start < 2 ^ 32 ∧ 101 < 2 ^ 32 ∧
      tickSub ((blinkDriver.cycle_start + 101) % 2 ^ 32) blinkDriver.cycle_start = 101 ∧
      (dwellElapsed blinkDriver ((blinkDriver.cycle_start + 101) % 2 ^ 32) = true ↔
        blinkDriver.cycle_interval < 101) :=
  ⟨by decide, by decide,
    dwell_test_across_overflow blinkDriver 101 (by decide) (by decide)⟩

/-- C7: for every count of at least `1` (and at most the length of the caller's array), after
`lm_apply_pgm(steps, count)` obtained the lock the cursor is `0` and the stored program is the
first `count` steps; every run of sequencer iterations from there completes without a read
outside the program and ends in a state with the same program and `uIndex < count`. -/
theorem cursor_invariant (P dsm n : Nat) (hw : InitEnv) (mz : Bool) (d : lm_led_t)
    (steps : List lm_led_state_t) (count : Nat) (h1 : 1 ≤ count) (h2 : count ≤ steps.length) :
    ∃ d0, lm_apply_pgm dsm { lm := LmRef.live d, tasks := n } (some steps) count hw true mz =
        .ok { lm := LmRef.live d0, tasks := n } ∧
      d0.uIndex = 0 ∧ d0.led_pgm = some (steps.take count) ∧
      ∀ env, ∃ d1 out, runTask P d0 env = .ok (d1, out) ∧
        d1.led_pgm = some (steps.take count) ∧ d1.uIndex < count := by
  have hlen := take_length_eq steps count h2
  refine ⟨_, by rw [lm_apply_pgm_live, applyLocked_some d steps count mz h1 h2], rfl, rfl, ?_⟩
  intro env
  have hr := rendering_installed d (steps.take count)
  rw [hlen] at hr
  have hl : 1 ≤ (steps.take count).length := by omega
  obtain ⟨d1, out, hrun, hr1, _⟩ :=
    runTask_rendering P (steps.take count) d.speed_mode d.channel hl env 0 _ hr
  have := rendering_index_lt _ _ _ _ d1 hl hr1
  exact ⟨d1, out, hrun, hr1.1, by omega⟩

theorem cursor_invariant_witness :
    1 ≤ 2 ∧ 2 ≤ blinkProgram.length ∧
      ∃ d0, lm_apply_pgm 0 { lm := LmRef.live freshDriver, tasks := 1 } (some blinkProgram) 2
          hwOk true true = .ok { lm := LmRef.live d0, tasks := 1 } ∧
        d0.uIndex = 0 ∧ d0.led_pgm = some (blinkProgram.take 2) ∧
        ∀ env, ∃ d1 out, runTask 1 d0 env = .ok (d1, out) ∧
          d1.led_pgm = some (blinkProgram.take 2) ∧ d1.uIndex < 2 :=
  ⟨by decide, by decide,
    cursor_invariant 1 0 1 hwOk true freshDriver blinkProgram 2 (by decide) (by decide)⟩

set_option maxRecDepth 8192 in
/-- C2, as the claim states it, fails for a program of `257` steps: `maxPgmIdx` holds
`257 mod 256 = 1`, and the second commit after installation is step `0` again, not step `1`. -/
theorem cyclic_commits_fail_at_257 :
    lm_apply_pgm 0 { lm := LmRef.live freshDriver, tasks := 1 } (some (rampProgram 257)) 257
        hwOk true true = .ok { lm := LmRef.live rampDriver, tasks := 1 } ∧
      runTask 1 rampDriver
          [{ taken := true, now1 := 1, now2 := 1 }, { taken := true, now1 := 12, now2 := 12 }] =
        .ok ({ rampDriver with cycle_start := 12, cycle_interval := 10 },
          [rampCommit0, rampCommit0]) ∧
      cycleCommit (rampProgram 257) 0 0 257 1 = some rampCommit1 ∧
      [rampCommit0, rampCommit0][1]? ≠ cycleCommit (rampProgram 257) 0 0 257 1 := by
  refine ⟨by rfl, by rfl, by rfl, by decide⟩

/-- C2, amended: for every program of `N` steps with `1 ≤ N ≤ 256` installed with
`lm_apply_pgm` (lock obtained), every run of the sequencer afterwards completes, and its `k`-th
commit (from `0`) reads index `k mod N` and issues the call of step `k mod N`; after the run
the cursor is the number of commits modulo `N`, so it is back at `0` after step `N - 1`. -/
theorem cyclic_commits (P dsm n : Nat) (hw : InitEnv) (mz : Bool) (d : lm_led_t)
    (pgm : List lm_led_state_t) (h1 : 1 ≤ pgm.length) (h2 : pgm.length ≤ 256) :
    ∃ d0, lm_apply_pgm dsm { lm := LmRef.live d, tasks := n } (some pgm) pgm.length hw true mz =
        .ok { lm := LmRef.live d0, tasks := n } ∧
      ∀ env, ∃ d1 out, runTask P d0 env = .ok (d1, out) ∧
        d1.uIndex = out.length % pgm.length ∧
        ∀ k, k < out.length →
          out[k]? = (pgm[k % pgm.length]?).map fun st =>
            { index := k % pgm.length, call := commitCall d.speed_mode d.channel st } := by
  refine ⟨_, by rw [lm_apply_pgm_live, applyLocked_some d pgm pgm.length mz h1 (le_refl _)], ?_⟩
  intro env
  rw [List.take_length]
  have hr := rendering_installed d pgm
  obtain ⟨d1, out, hrun, hr1, hk⟩ :=
    runTask_rendering P pgm d.speed_mode d.channel h1 env 0 _ hr
  have hp := period_eq pgm.length h1 h2
  rw [hp] at hk
  refine ⟨d1, out, hrun, ?_, ?_⟩
  · have := hr1.2.2.1
    rw [hp] at this
    simpa using this
  · intro k hlt
    have := hk k hlt
    rw [Nat.zero_add] at this
    exact this

theorem cyclic_commits_witness :
    1 ≤ blinkProgram.length ∧ blinkProgram.length ≤ 256 ∧
      ∃ d0, lm_apply_pgm 0 { lm := LmRef.live freshDriver, tasks := 1 } (some blinkProgram)
          blinkProgram.length hwOk true true = .ok { lm := LmRef.live d0, tasks := 1 } ∧
        ∀ env, ∃ d1 out, runTask 1 d0 env = .ok (d1, out) ∧
          d1.uIndex = out.length % blinkProgram.length ∧
          ∀ k, k < out.length →
            out[k]? = (blinkProgram[k % blinkProgram.length]?).map fun st =>
              { index := k % blinkProgram.length,
                call := commitCall freshDriver.speed_mode freshDriver.channel st } :=
  ⟨by decide, by decide,
    cyclic_commits 1 0 1 hwOk true freshDriver blinkProgram (by decide) (by decide)⟩

/-- C4: for every driver state `d`, whatever program and cursor it holds, and every non-empty
program `p2`, after `lm_apply_pgm(p2, length)` obtained the lock the cursor is `0` and the
stored program is `p2`.  The iteration that next finds the dwell elapsed reads index `0` and
issues the call of step `0` of `p2`: `ledc_set_duty_and_update` with `p2[0].intensity` when
`p2[0].fade_time` is `0`, `ledc_set_fade_time_and_start` with `p2[0].intensity`,
`p2[0].fade_time` and `LEDC_FADE_NO_WAIT` otherwise; and in every run of the sequencer
afterwards the first commit, when there is one, is that commit. -/
theorem atomic_replace (P dsm n : Nat) (hw : InitEnv) (mz : Bool) (d : lm_led_t)
    (p2 : List lm_led_state_t) (h : p2 ≠ []) :
    ∃ d0, lm_apply_pgm dsm { lm := LmRef.live d, tasks := n } (some p2) p2.length hw true mz =
        .ok { lm := LmRef.live d0, tasks := n } ∧
      d0.uIndex = 0 ∧ d0.led_pgm = some p2 ∧
      (∀ now1 now2, dwellElapsed d0 now1 = true →
        ∃ d1, vLedTask P d0 true now1 now2 =
          .ok (d1, [{ index := 0,
                      call :=
                        if (p2.head h).fade_time = 0 then
                          HwCall.ledc_set_duty_and_update d.speed_mode d.channel
                            (p2.head h).intensity 0
                        else
                          HwCall.ledc_set_fade_time_and_start d.speed_mode d.channel
                            (p2.head h).intensity (p2.head h).fade_time
                            ledc_fade_mode_t.LEDC_FADE_NO_WAIT }])) ∧
      ∀ env, ∃ d1 out, runTask P d0 env = .ok (d1, out) ∧
        (out = [] ∨
          out.head? =
            some { index := 0,
                   call :=
                     if (p2.head h).fade_time = 0 then
                       HwCall.ledc_set_duty_and_update d.speed_mode d.channel
                         (p2.head h).intensity 0
                     else
                       HwCall.ledc_set_fade_time_and_start d.speed_mode d.channel
                         (p2.head h).intensity (p2.head h).fade_time
                         ledc_fade_mode_t.LEDC_FADE_NO_WAIT }) := by
  have h1 : 1 ≤ p2.length := Nat.pos_of_ne_zero (fun h0 => h (List.length_eq_zero.mp h0))
  have hget : p2[0]? = some (p2.head h) := by
    cases p2 with
    | nil => exact absurd rfl h
    | cons a t => simp
  refine ⟨{ d with led_pgm := some p2, uIndex := 0, maxPgmIdx := p2.length % 256 }, ?_,
    rfl, rfl, ?_, ?_⟩
  · rw [lm_apply_pgm_live, applyLocked_some d p2 p2.length mz h1 (le_refl _), List.take_length]
  · intro now1 now2 hel
    exact ⟨_, vLedTask_commit P _ p2 _ now1 now2 rfl hget hel⟩
  · intro env
    obtain ⟨d1, out, hrun, _, hk⟩ :=
      runTask_rendering P p2 d.speed_mode d.channel h1 env 0 _ (rendering_installed d p2)
    refine ⟨d1, out, hrun, ?_⟩
    cases out with
    | nil => exact Or.inl rfl
    | cons c rest =>
      right
      have := hk 0 (by simp)
      simpa [cycleCommit, hget, commitCall] using this

theorem atomic_replace_witness :
    fadeProgram ≠ [] ∧
      ∃ d0, lm_apply_pgm 0 { lm := LmRef.live blinkDriver, tasks := 1 } (some fadeProgram)
          fadeProgram.length hwOk true true = .ok { lm := LmRef.live d0, tasks := 1 } ∧
        d0.uIndex = 0 ∧ d0.led_pgm = some fadeProgram ∧
        (∀ now1 now2, dwellElapsed d0 now1 = true →
          ∃ d1, vLedTask 1 d0 true now1 now2 =
            .ok (d1, [{ index := 0,
                        call := HwCall.ledc_set_fade_time_and_start 0 0 2048 50
                          ledc_fade_mode_t.LEDC_FADE_NO_WAIT }])) ∧
        ∀ env, ∃ d1 out, runTask 1 d0 env = .ok (d1, out) ∧
          (out = [] ∨
            out.head? =
              some { index := 0,
                     call := HwCall.ledc_set_fade_time_and_start 0 0 2048 50
                       ledc_fade_mode_t.LEDC_FADE_NO_WAIT }) :=
  ⟨by decide, atomic_replace 1 0 1 hwOk true blinkDriver fadeProgram (by decide)⟩

/-- C9: whenever `lm_apply_pgm` returns on a live driver (with or without a program, lock
obtained or not), `cycle_start` and `cycle_interval` are as before the call.  So after the
call the sequencer issues nothing and changes nothing as long as the dwell test fails against
the interval left by the previously committed step, and the iteration that finds it elapsed
commits the step at the cursor, which is step `0` of a newly installed non-empty program. -/
theorem apply_keeps_timing (P dsm n : Nat) (hw : InitEnv) (taken mz : Bool) (d : lm_led_t)
    (led_state : Option (List lm_led_state_t)) (size : Nat) (w1 : World)
    (h : lm_apply_pgm dsm { lm := LmRef.live d, tasks := n } led_state size hw taken mz =
      .ok w1) :
    ∃ d0, w1 = { lm := LmRef.live d0, tasks := n } ∧
      d0.cycle_start = d.cycle_start ∧ d0.cycle_interval = d.cycle_interval ∧
      (∀ env, (∀ t ∈ env, dwellElapsed d t.now1 = false) → runTask P d0 env = .ok (d0, [])) ∧
      (∀ steps st now1 now2, taken = true → led_state = some steps → 1 ≤ size →
        steps[0]? = some st → dwellElapsed d now1 = true →
        ∃ d1, vLedTask P d0 true now1 now2 =
          .ok (d1, [{ index := 0, call := commitCall d.speed_mode d.channel st }])) := by
  cases taken with
  | false =>
    rw [lm_apply_pgm_not_taken] at h
    simp only [Except.ok.injEq] at h
    subst h
    refine ⟨d, rfl, rfl, rfl, fun env henv => runTask_waiting P d env henv, ?_⟩
    intro steps st now1 now2 ht
    exact absurd ht (by decide)
  | true =>
    rw [lm_apply_pgm_live] at h
    cases led_state with
    | none =>
      rw [applyLocked_null] at h
      simp only [Except.ok.injEq] at h
      subst h
      refine ⟨_, rfl, rfl, rfl, fun env henv => runTask_waiting P _ env henv, ?_⟩
      intro steps st now1 now2 _ hs
      exact absurd hs (by simp)
    | some steps =>
      by_cases hsz : size ≤ steps.length
      · simp only [applyLocked, hsz, if_true, Except.ok.injEq] at h
        subst h
        refine ⟨_, rfl, rfl, rfl, fun env henv => runTask_waiting P _ env henv, ?_⟩
        intro steps1 st now1 now2 _ hs h1 hst hel
        simp only [Option.some.injEq] at hs
        subst hs
        have h0 : ¬ (size = 0 ∧ mz = true) := by omega
        have hget : (steps.take size)[0]? = some st := by
          rw [List.getElem?_take_of_lt (by omega)]
          exact hst
        exact ⟨_, vLedTask_commit P _ (steps.take size) st now1 now2 (by simp [h0]) hget hel⟩
      · simp [applyLocked, hsz] at h

theorem apply_keeps_timing_witness :
    ∃ d0, ({ lm := LmRef.live { blinkDriver with led_pgm := some (rampProgram 3), uIndex := 0,
                                                  maxPgmIdx := 3 },
             tasks := 1 } : World) = { lm := LmRef.live d0, tasks := 1 } ∧
      d0.cycle_start = blinkDriver.cycle_start ∧
      d0.cycle_interval = blinkDriver.cycle_interval ∧
      (∀ env, (∀ t ∈ env, dwellElapsed blinkDriver t.now1 = false) →
        runTask 1 d0 env = .ok (d0, [])) ∧
      (∀ steps st now1 now2, true = true → some (rampProgram 3) = some steps → 1 ≤ 3 →
        steps[0]? = some st → dwellElapsed blinkDriver now1 = true →
        ∃ d1, vLedTask 1 d0 true now1 now2 =
          .ok (d1, [{ index := 0,
                      call := commitCall blinkDriver.speed_mode blinkDriver.channel st }])) :=
  apply_keeps_timing 1 0 1 hwOk true true blinkDriver (some (rampProgram 3)) 3 _ (by rfl)

theorem ticksFrom_succ (now n : Nat) :
    ticksFrom now (n + 1) = ticksFrom now n ++
      [{ taken := true, now1 := (now + 1 + n) % 2 ^ 32, now2 := (now + 1 + n) % 2 ^ 32 }] := by
  simp [ticksFrom, List.range_succ]

theorem ticksFrom_waiting (d : lm_led_t) (now n : Nat) (hnow : d.cycle_start = now)
    (hlt : now < 2 ^ 32) (hn : n ≤ d.cycle_interval) (hi : d.cycle_interval < 2 ^ 32) :
    ∀ t ∈ ticksFrom now n, dwellElapsed d t.now1 = false := by
  intro t ht
  simp only [ticksFrom, List.mem_map, List.mem_range] at ht
  obtain ⟨k, hk, rfl⟩ := ht
  have h := tickSub_add now (1 + k) hlt (by omega)
  have e : now + 1 + k = now + (1 + k) := by omega
  simp only [dwellElapsed, hnow, e, h, decide_eq_false_iff_not]
  omega

theorem commit_state (P : Nat) (d : lm_led_t) (pgm : List lm_led_state_t) (now : Nat)
    (hp : d.led_pgm = some pgm) (hlt : d.uIndex < pgm.length)
    (hel : dwellElapsed d now = true) :
    ∃ d1 c, vLedTask P d true now now = .ok (d1, [c]) ∧ c.index = d.uIndex ∧
      d1.led_pgm = some pgm ∧ d1.uIndex = nextIndex d ∧ d1.cycle_start = now % 2 ^ 32 ∧
      d1.cycle_interval = (pgm[d.uIndex].time + pgm[d.uIndex].fade_time) % 2 ^ 32 / P :=
  ⟨_, _, vLedTask_commit P d pgm _ now now hp (List.getElem?_eq_getElem hlt) hel,
    rfl, hp, rfl, rfl, rfl⟩

/-- C3: let a commit of step `i` (the step at the cursor, `fade_time` and `time` any 16-bit
values) happen at tick `now`, and let the sequencer then run once per tick, always obtaining
the lock.  The commit sets `cycle_interval = (fade_time + time) / portTICK_PERIOD_MS`, the sum
not wrapped at 16 bits, and `cycle_start = now`; no iteration commits while
`now' - cycle_start ≤ cycle_interval`; the next commit is made by the iteration
`cycle_interval + 1` ticks after `now` and by none before; and that gap, in milliseconds,
exceeds `fade_time + time` by more than `0` and at most one tick period. -/
theorem dwell_arithmetic (P : Nat) (hP : 0 < P) (d : lm_led_t) (pgm : List lm_led_state_t)
    (now : Nat) (hnow : now < 2 ^ 32) (hp : d.led_pgm = some pgm) (hlt : d.uIndex < pgm.length)
    (hnext : nextIndex d < pgm.length) (hf : pgm[d.uIndex].fade_time < 65536)
    (ht : pgm[d.uIndex].time < 65536) (hel : dwellElapsed d now = true) :
    ∃ d1 c, vLedTask P d true now now = .ok (d1, [c]) ∧ c.index = d.uIndex ∧
      d1.cycle_interval = (pgm[d.uIndex].fade_time + pgm[d.uIndex].time) / P ∧
      d1.cycle_start = now ∧
      (∀ taken now1 now2, tickSub now1 d1.cycle_start ≤ d1.cycle_interval →
        vLedTask P d1 taken now1 now2 = .ok (d1, [])) ∧
      runTask P d1 (ticksFrom now d1.cycle_interval) = .ok (d1, []) ∧
      (∃ d2 c2, runTask P d1 (ticksFrom now (d1.cycle_interval + 1)) = .ok (d2, [c2]) ∧
        c2.index = d1.uIndex ∧ d2.cycle_start = (now + (d1.cycle_interval + 1)) % 2 ^ 32) ∧
      pgm[d.uIndex].fade_time + pgm[d.uIndex].time < (d1.cycle_interval + 1) * P ∧
      (d1.cycle_interval + 1) * P ≤ pgm[d.uIndex].fade_time + pgm[d.uIndex].time + P := by
  obtain ⟨d1, c, hrun, hc, hp1, hu1, hs1, hi1⟩ := commit_state P d pgm now hp hlt hel
  have hmod : (pgm[d.uIndex].time + pgm[d.uIndex].fade_time) % 2 ^ 32 =
      pgm[d.uIndex].fade_time + pgm[d.uIndex].time := by omega
  rw [hmod] at hi1
  rw [Nat.mod_eq_of_lt hnow] at hs1
  have hle : d1.cycle_interval ≤ pgm[d.uIndex].fade_time + pgm[d.uIndex].time := by
    rw [hi1]; exact Nat.div_le_self _ _
  have hi32 : d1.cycle_interval < 2 ^ 32 := by omega
  have hwait : runTask P d1 (ticksFrom now d1.cycle_interval) = .ok (d1, []) :=
    runTask_waiting P d1 _ (ticksFrom_waiting d1 now _ hs1 hnow (le_refl _) hi32)
  refine ⟨d1, c, hrun, hc, hi1, hs1, ?_, hwait, ?_, ?_, ?_⟩
  · intro taken now1 now2 hle1
    apply vLedTask_wait
    simp only [dwellElapsed, decide_eq_false_iff_not]
    omega
  · have hel1 : dwellElapsed d1 ((now + 1 + d1.cycle_interval) % 2 ^ 32) = true := by
      have h := tickSub_add now (1 + d1.cycle_interval) hnow (by omega)
      have e : now + 1 + d1.cycle_interval = now + (1 + d1.cycle_interval) := by omega
      simp only [dwellElapsed, hs1, e, h, decide_eq_true_eq]
      omega
    have hlt1 : d1.uIndex < pgm.length := by rw [hu1]; exact hnext
    obtain ⟨d2, c2, hrun2, hc2, _, _, hs2, _⟩ := commit_state P d1 pgm _ hp1 hlt1 hel1
    refine ⟨d2, c2, ?_, hc2, ?_⟩
    · rw [ticksFrom_succ]
      have hlast := runTask_cons_ok P d1 d2 d2
        { taken := true, now1 := (now + 1 + d1.cycle_interval) % 2 ^ 32,
          now2 := (now + 1 + d1.cycle_interval) % 2 ^ 32 } [] [c2] [] hrun2 (runTask_nil P d2)
      simpa using runTask_append P _ _ d1 d1 d2 [] _ hwait hlast
    · rw [hs2, Nat.mod_mod]
      congr 1
      omega
  · rw [hi1]
    have h1 := Nat.div_add_mod (pgm[d.uIndex].fade_time + pgm[d.uIndex].time) P
    have h2 := Nat.mod_lt (pgm[d.uIndex].fade_time + pgm[d.uIndex].time) hP
    have e : ((pgm[d.uIndex].fade_time + pgm[d.uIndex].time) / P + 1) * P =
        P * ((pgm[d.uIndex].fade_time + pgm[d.uIndex].time) / P) + P := by ring
    omega
  · rw [hi1]
    have := Nat.div_mul_le_self (pgm[d.uIndex].fade_time + pgm[d.uIndex].time) P
    have e : ((pgm[d.uIndex].fade_time + pgm[d.uIndex].time) / P + 1) * P =
        (pgm[d.uIndex].fade_time + pgm[d.uIndex].time) / P * P + P := by ring
    omega

theorem dwell_arithmetic_witness :
    0 < 10 ∧ 95 < 2 ^ 32 ∧ blinkDriver.led_pgm = some blinkProgram ∧
      blinkDriver.uIndex < blinkProgram.length ∧ nextIndex blinkDriver < blinkProgram.length ∧
      dwellElapsed blinkDriver 95 = true ∧
      ∃ d1 c, vLedTask 10 blinkDriver true 95 95 = .ok (d1, [c]) ∧ c.index = blinkDriver.uIndex ∧
        d1.cycle_interval = (blinkProgram[1].fade_time + blinkProgram[1].time) / 10 ∧
        d1.cycle_start = 95 ∧
        (∀ taken now1 now2, tickSub now1 d1.cycle_start ≤ d1.cycle_interval →
          vLedTask 10 d1 taken now1 now2 = .ok (d1, [])) ∧
        runTask 10 d1 (ticksFrom 95 d1.cycle_interval) = .ok (d1, []) ∧
        (∃ d2 c2, runTask 10 d1 (ticksFrom 95 (d1.cycle_interval + 1)) = .ok (d2, [c2]) ∧
          c2.index = d1.uIndex ∧ d2.cycle_start = (95 + (d1.cycle_interval + 1)) % 2 ^ 32) ∧
        blinkProgram[1].fade_time + blinkProgram[1].time < (d1.cycle_interval + 1) * 10 ∧
        (d1.cycle_interval + 1) * 10 ≤ blinkProgram[1].fade_time + blinkProgram[1].time + 10 :=
  ⟨by decide, by decide, rfl, by decide, by decide, by decide,
    dwell_arithmetic 10 (by decide) blinkDriver blinkProgram 95 (by decide) rfl (by decide)
      (by decide) (by decide) (by decide) (by decide)⟩

/-- The stored pointer decides alone whether the sequencer is idle; the length is not
consulted.  On an allocator whose `malloc(0)` returns a pointer to a zero-sized block, which is
not the allocator of the ESP-IDF target, `lm_apply_pgm(steps, 0)` with `steps` non-null stores
a non-null pointer, and the iteration that finds the dwell elapsed reads `led_pgm[0]`, outside
the block. -/
theorem zero_size_block_read :
    lm_apply_pgm 0 { lm := LmRef.live freshDriver, tasks := 1 } (some blinkProgram) 0 hwOk
        true false = .ok { lm := LmRef.live emptyBufferDriver, tasks := 1 } ∧
      emptyBufferDriver.led_pgm ≠ none ∧
      vLedTask 1 emptyBufferDriver true 1 1 = .error (Fault.readOutOfBounds 0) := by
  refine ⟨by rfl, by decide, by rfl⟩

/-- C6: a zero-length program means idle.  The driver is an ESP-IDF component, and the
allocator of ESP-IDF returns a null pointer for a request of `0` bytes.  After
`lm_apply_pgm(steps, 0)` with `steps` non-null obtained the lock, `led_pgm` is `NULL`, and every
iteration and every run of the sequencer afterwards issues no hardware call, reads no step
(the result is not a fault) and leaves the state unchanged. -/
theorem zero_length_idle (P dsm n : Nat) (hw : InitEnv) (d : lm_led_t)
    (steps : List lm_led_state_t) :
    lm_apply_pgm dsm { lm := LmRef.live d, tasks := n } (some steps) 0 hw true true =
        .ok { lm := LmRef.live { d with led_pgm := none, uIndex := 0, maxPgmIdx := 0 },
              tasks := n } ∧
      (∀ taken now1 now2,
        vLedTask P { d with led_pgm := none, uIndex := 0, maxPgmIdx := 0 } taken now1 now2 =
          .ok ({ d with led_pgm := none, uIndex := 0, maxPgmIdx := 0 }, [])) ∧
      ∀ env, runTask P { d with led_pgm := none, uIndex := 0, maxPgmIdx := 0 } env =
        .ok ({ d with led_pgm := none, uIndex := 0, maxPgmIdx := 0 }, []) := by
  refine ⟨?_, fun taken now1 now2 => vLedTask_idle P _ taken now1 now2 rfl,
    fun env => runTask_idle P _ rfl env⟩
  rw [lm_apply_pgm_live]
  simp [applyLocked]

/-! ## Initialisation -/

theorem lm_init_fail_iff (dsm : Nat) (w : World) (cfg : Option lm_ledc_config_t)
    (hw : InitEnv) :
    (lm_init dsm w cfg hw).2 = esp_err_t.ESP_FAIL ↔
      (hw.timerOk = false ∨ hw.channelOk = false ∨ hw.fadeOk = false) := by
  obtain ⟨a, b, c⟩ := hw
  cases a <;> cases b <;> cases c <;> simp [lm_init]

theorem lm_init_fail_no_task (dsm : Nat) (w : World) (cfg : Option lm_ledc_config_t)
    (hw : InitEnv) (h : (lm_init dsm w cfg hw).2 = esp_err_t.ESP_FAIL) :
    (lm_init dsm w cfg hw).1.tasks = w.tasks ∧ (lm_init dsm w cfg hw).1.lm = LmRef.freed := by
  obtain ⟨a, b, c⟩ := hw
  cases a <;> cases b <;> cases c <;> simp [lm_init] at h ⊢

/-- C8: the code at the failing input.  When the timer configuration fails, `lm_init` returns
`ESP_FAIL` and creates no task, but the global `lm` is left pointing to the freed block
instead of being reset to `NULL`; so the next `lm_apply_pgm` finds `lm` non-null, does not
call `lm_init` again and accesses the freed block. -/
theorem failed_init_leaves_lm_dangling (dsm : Nat) (w : World)
    (cfg : Option lm_ledc_config_t) (led_state : Option (List lm_led_state_t)) (size : Nat)
    (hw : InitEnv) (taken mz : Bool) :
    lm_init dsm w cfg hwTimerFails = ({ w with lm := LmRef.freed }, esp_err_t.ESP_FAIL) ∧
      (lm_init dsm w cfg hwTimerFails).1.lm ≠ LmRef.null ∧
      lm_apply_pgm dsm (lm_init dsm w cfg hwTimerFails).1 led_state size hw taken mz =
        .error Fault.useAfterFree := by
  refine ⟨rfl, ?_, ?_⟩
  · simp [lm_init, hwTimerFails]
  · simp [lm_init, hwTimerFails, lm_apply_pgm, applyWith]

end LedDriver
